import Mathlib

/-
Shallow embedding of src/src/libtiled/tile.h (namespace Tiled) from the
tiled repository: the terrain-corner codec (makeTerrain, setTerrainCorner,
Tile::cornerTerrainId), the Frame record, and the Tile value object with
its image, terrain and animation state.

Conventions of the embedding:
  - C `unsigned` (32-bit) is a Nat kept below 2^32; conversion from a
    signed int applies `% 2^32` explicitly.
  - C `int` is Int; `i & 0xFF` on a two's-complement int is `i % 256`
    (euclidean, hence non-negative), and a left shift of an int that is
    then stored into an unsigned is multiplication by the power of two
    followed by `% 2^32`.
  - Method bodies that tile.h only declares (they live in tile.cpp, which
    is not part of the excerpt) are modelled from the spec and marked so
    in their doc comments.
-/

namespace Tiled

/-- C `i & 0xFF` on a two's-complement int: the low byte, as a Nat. -/
def byteOfInt (i : Int) : Nat := (i % 256).toNat

/-- Embedding of `makeTerrain(int topLeft, int topRight, int bottomLeft, int bottomRight)`
(tile.h lines 59-68): `(topLeft & 0xFF) << 24 | (topRight & 0xFF) << 16 |
(bottomLeft & 0xFF) << 8 | (bottomRight & 0xFF)`, returned as unsigned. -/
def makeTerrain (topLeft topRight bottomLeft bottomRight : Int) : Nat :=
  (byteOfInt topLeft) <<< 24 |||
  (byteOfInt topRight) <<< 16 |||
  (byteOfInt bottomLeft) <<< 8 |||
  (byteOfInt bottomRight)

/-- Embedding of `setTerrainCorner(unsigned terrain, int corner, int terrainId)`
(tile.h lines 73-78). `mask = 0xFF << (3 - corner) * 8`;
`insert = terrainId << (3 - corner) * 8` converted to unsigned (mod 2^32);
result `(terrain & ~mask) | (insert & mask)`, with `~` the 32-bit
complement. Corner is a Nat here; the source has undefined behaviour for
corners outside [0,3]. -/
def setTerrainCorner (terrain : Nat) (corner : Nat) (terrainId : Int) : Nat :=
  let mask : Nat := 0xFF <<< ((3 - corner) * 8)
  let insert : Nat := ((terrainId * 2 ^ ((3 - corner) * 8)) % (2 ^ 32 : Int)).toNat
  (terrain &&& (0xFFFFFFFF ^^^ mask)) ||| (insert &&& mask)

/-- Embedding of the body of `Tile::cornerTerrainId(int corner)` (tile.h
lines 266-269), factored over the packed terrain word:
`t = (terrain >> (3 - corner)*8) & 0xFF; return t == 0xFF ? -1 : (int)t`. -/
def cornerTerrainIdOf (terrain : Nat) (corner : Nat) : Int :=
  let t : Nat := (terrain >>> ((3 - corner) * 8)) &&& 0xFF
  if t = 0xFF then -1 else (t : Int)

/-- Embedding of `struct Frame` (tile.h lines 83-93): a referenced tile id
and a duration in milliseconds; equality is structural. -/
structure Frame where
  tileId : Int
  duration : Int
deriving DecidableEq, Repr

/-- Abstraction of QPixmap: the only property tile.h inspects is nullness
(`image.isNull()` in `Tile::setImage`). -/
structure QPixmap where
  isNull : Bool
deriving DecidableEq, Repr

/-- Modelled from the spec: the load-status enumeration of section 7
("not-loaded / ready / error"); the enum itself is declared in tiled.h,
which is not part of the excerpt, but tile.h uses the constants
`LoadingError` and `LoadingReady` by name in `Tile::setImage`. -/
inductive LoadingStatus where
  | LoadingInProgress
  | LoadingReady
  | LoadingError
deriving DecidableEq, Repr

export LoadingStatus (LoadingInProgress LoadingReady LoadingError)

/-- Embedding of the state of `class Tile` (tile.h lines 154-167), restricted
to the fields the verified operations touch: image and its load status,
the packed terrain word, the animation frame sequence, the current frame
index and the unused (elapsed-within-frame) time. -/
structure Tile where
  mId : Int
  mImage : QPixmap
  mImageStatus : LoadingStatus
  mTerrain : Nat
  mFrames : List Frame
  mCurrentFrameIndex : Int
  mUnusedTime : Int
deriving DecidableEq, Repr

namespace Tile

/-- Embedding of `Tile::id()` (tile.h lines 175-178). -/
def id (t : Tile) : Int := t.mId

/-- Embedding of `Tile::image()` (tile.h lines 191-194). -/
def image (t : Tile) : QPixmap := t.mImage

/-- Embedding of `Tile::setImage(const QPixmap &image)` (tile.h lines
199-203): stores the image and sets the status to `LoadingError` when the
image is null, `LoadingReady` otherwise. -/
def setImage (t : Tile) (image : QPixmap) : Tile :=
  { t with
      mImage := image
      mImageStatus := if image.isNull then LoadingError else LoadingReady }

/-- Embedding of `Tile::imageStatus()` (tile.h lines 330-333). -/
def imageStatus (t : Tile) : LoadingStatus := t.mImageStatus

/-- Embedding of `Tile::setImageStatus(LoadingStatus status)` (tile.h
lines 335-338). -/
def setImageStatus (t : Tile) (status : LoadingStatus) : Tile :=
  { t with mImageStatus := status }

/-- Embedding of `Tile::terrain()` (tile.h lines 282-285). -/
def terrain (t : Tile) : Nat := t.mTerrain

/-- Modelled from the spec: `Tile::setTerrain(unsigned)` is declared at
tile.h line 133 but defined in tile.cpp, which is not part of the excerpt;
per the data model (section 3) the tile "holds ... a terrain
classification", so setting it stores the packed word. -/
def setTerrain (t : Tile) (terrain : Nat) : Tile :=
  { t with mTerrain := terrain }

/-- Embedding of `Tile::cornerTerrainId(int corner)` (tile.h lines
266-269), via `cornerTerrainIdOf` applied to `terrain()`. -/
def cornerTerrainId (t : Tile) (corner : Nat) : Int :=
  cornerTerrainIdOf t.terrain corner

/-- Embedding of `Tile::setCornerTerrainId(int corner, int terrainId)`
(tile.h lines 274-277): `setTerrain(setTerrainCorner(mTerrain, corner, terrainId))`. -/
def setCornerTerrainId (t : Tile) (corner : Nat) (terrainId : Int) : Tile :=
  t.setTerrain (setTerrainCorner t.mTerrain corner terrainId)

/-- Embedding of `Tile::frames()` (tile.h lines 312-315). -/
def frames (t : Tile) : List Frame := t.mFrames

/-- Embedding of `Tile::isAnimated()` (tile.h lines 317-320):
`!mFrames.isEmpty()`. -/
def isAnimated (t : Tile) : Bool := !t.mFrames.isEmpty

/-- Embedding of `Tile::currentFrameIndex()` (tile.h lines 322-325). -/
def currentFrameIndex (t : Tile) : Int := t.mCurrentFrameIndex

/-- Modelled from the spec: `Tile::setFrames` is declared at tile.h line
143 but defined in tile.cpp, which is not part of the excerpt. It stores
the new frame sequence; the data-model invariant (section 3) requires the
current frame index to be a valid index whenever the sequence is
non-empty, so the animation state is reset to the first frame with zero
elapsed time. -/
def setFrames (t : Tile) (frames : List Frame) : Tile :=
  { t with mFrames := frames, mCurrentFrameIndex := 0, mUnusedTime := 0 }

/-- Modelled from the spec: `Tile::resetAnimation()` is declared at tile.h
line 146 but defined in tile.cpp, which is not part of the excerpt.
Section 4.2: "resetting returns to the first frame with zero elapsed
time" and the operation reports "whether the visible frame changed", i.e.
whether the current frame index moved (to 0). -/
def resetAnimation (t : Tile) : Tile × Bool :=
  ({ t with mCurrentFrameIndex := 0, mUnusedTime := 0 },
   decide (t.mCurrentFrameIndex ≠ 0))

/-- Default frame used for out-of-range sequence access in the model; the
animation invariant keeps every actual access in range. -/
def noFrame : Frame := ⟨0, 0⟩

end Tile

/-- Modelled from the spec (section 4.2): the frame-advancing loop of
`Tile::advanceAnimation`, defined in tile.cpp, which is not part of the
excerpt. "Advancing time by an elapsed amount moves forward through
frames (wrapping at sequence end) proportionally to each frame's
duration": while the current frame has a positive (finite) duration and
the accumulated unused time exceeds it, consume that duration and step to
the next frame, wrapping modulo the sequence length. A non-positive
duration is the infinite-duration-equivalent and stops the loop. -/
def advanceLoop (frames : List Frame) (idx : Int) (unused : Int) : Int × Int :=
  if _h : 0 < (frames.getD idx.toNat Tile.noFrame).duration ∧
          (frames.getD idx.toNat Tile.noFrame).duration < unused then
    advanceLoop frames ((idx + 1) % (frames.length : Int))
      (unused - (frames.getD idx.toNat Tile.noFrame).duration)
  else
    (idx, unused)
termination_by unused.toNat
decreasing_by
  omega

namespace Tile

/-- Modelled from the spec: `Tile::advanceAnimation(int ms)` is declared
at tile.h line 147 but defined in tile.cpp, which is not part of the
excerpt. Section 4.2: only an animated tile advances; the elapsed amount
is added to the unused time and the loop `advanceLoop` moves forward
through the frames; the call reports whether the visible frame (the
current frame index) changed. -/
def advanceAnimation (t : Tile) (ms : Int) : Tile × Bool :=
  if t.isAnimated then
    let r := advanceLoop t.mFrames t.mCurrentFrameIndex (t.mUnusedTime + ms)
    ({ t with mCurrentFrameIndex := r.1, mUnusedTime := r.2 },
     decide (r.1 ≠ t.mCurrentFrameIndex))
  else
    (t, false)

end Tile


/-! Byte-extraction toolkit for the terrain codec proofs. -/

/-- Byte extraction at shift `s`: the expression `(x >> s) & 0xFF` that the
codec uses for decoding. -/
def getByte (x s : Nat) : Nat := (x >>> s) &&& 0xFF

/-- Operation alphabet for the animation-state invariant: the public
mutators of the animation state (setFrames, resetAnimation,
advanceAnimation). -/
inductive TileOp where
  | setFrames (frames : List Frame)
  | resetAnimation
  | advanceAnimation (ms : Int)

/-- Apply one operation to a tile, discarding the changed-report. -/
def Tile.applyOp (t : Tile) : TileOp → Tile
  | .setFrames fs => t.setFrames fs
  | .resetAnimation => t.resetAnimation.fst
  | .advanceAnimation ms => (t.advanceAnimation ms).fst

/-- Apply a sequence of operations left to right. -/
def Tile.applyOps (t : Tile) (ops : List TileOp) : Tile :=
  ops.foldl Tile.applyOp t

/-- The data-model invariant of section 3: when the frame sequence is
non-empty the current frame index is a valid index into it. -/
def Tile.frameIndexValid (t : Tile) : Prop :=
  t.mFrames ≠ [] →
    0 <= t.mCurrentFrameIndex ∧ t.mCurrentFrameIndex < t.mFrames.length

theorem getByte_testBit (x s i : Nat) :
    (getByte x s).testBit i = (x.testBit (s + i) && decide (i < 8)) := by
  rw [getByte, show (0xFF : Nat) = 2 ^ 8 - 1 from rfl, Nat.testBit_land,
    Nat.testBit_shiftRight, Nat.testBit_two_pow_sub_one]

theorem getByte_lt (x s : Nat) : getByte x s < 256 := by
  have h : getByte x s ≤ 0xFF := Nat.and_le_right
  omega

theorem getByte_eq_div_mod (x s : Nat) : getByte x s = x / 2 ^ s % 2 ^ 8 := by
  have h255 : (0xFF : Nat) = 2 ^ 8 - 1 := rfl
  rw [getByte, h255, Nat.and_pow_two_sub_one_eq_mod, Nat.shiftRight_eq_div_pow]

theorem testBit_of_lt_256 (b i : Nat) (hb : b < 256) (hi : 8 ≤ i) :
    b.testBit i = false := by
  refine Nat.testBit_lt_two_pow (lt_of_lt_of_le hb ?_)
  calc (256 : Nat) = 2 ^ 8 := rfl
    _ ≤ 2 ^ i := Nat.pow_le_pow_right (by omega) hi

theorem getByte_lor (x y s : Nat) :
    getByte (x ||| y) s = getByte x s ||| getByte y s := by
  apply Nat.eq_of_testBit_eq
  intro i
  rw [getByte_testBit, Nat.testBit_lor, Nat.testBit_lor, getByte_testBit,
    getByte_testBit]
  cases x.testBit (s + i) <;> cases y.testBit (s + i) <;> simp

theorem getByte_shiftLeft_self (x s : Nat) (hx : x < 256) :
    getByte (x <<< s) s = x := by
  rw [getByte_eq_div_mod, Nat.shiftLeft_eq,
    Nat.mul_div_cancel _ (pow_pos (by norm_num) s)]
  exact Nat.mod_eq_of_lt hx

theorem getByte_shiftLeft_below (x s t : Nat) (h : t + 8 ≤ s) :
    getByte (x <<< s) t = 0 := by
  rw [getByte_eq_div_mod, Nat.shiftLeft_eq]
  have hs : s = (s - t - 8) + 8 + t := by omega
  rw [hs, pow_add, pow_add, ← Nat.mul_assoc, ← Nat.mul_assoc,
    Nat.mul_div_cancel _ (pow_pos (by norm_num) t)]
  exact Nat.mul_mod_left _ _

theorem getByte_shiftLeft_above (x s t : Nat) (hx : x < 256) (h : s + 8 ≤ t) :
    getByte (x <<< s) t = 0 := by
  rw [getByte_eq_div_mod, Nat.shiftLeft_eq]
  have hz : x * 2 ^ s / 2 ^ t = 0 := by
    apply Nat.div_eq_of_lt
    calc x * 2 ^ s < 256 * 2 ^ s :=
          (Nat.mul_lt_mul_right (pow_pos (by norm_num) s)).mpr hx
      _ = 2 ^ (s + 8) := by rw [pow_add]; ring
      _ ≤ 2 ^ t := Nat.pow_le_pow_right (by norm_num) (by omega)
  rw [hz, Nat.zero_mod]

theorem getByte_of_lt_above (x t : Nat) (hx : x < 256) (h : 8 ≤ t) :
    getByte x t = 0 := by
  rw [getByte_eq_div_mod]
  have hz : x / 2 ^ t = 0 := by
    apply Nat.div_eq_of_lt
    calc x < 256 := hx
      _ = 2 ^ 8 := rfl
      _ ≤ 2 ^ t := Nat.pow_le_pow_right (by norm_num) h
  rw [hz, Nat.zero_mod]

theorem getByte_zero (x : Nat) (hx : x < 256) : getByte x 0 = x := by
  rw [getByte_eq_div_mod, Nat.pow_zero, Nat.div_one]
  exact Nat.mod_eq_of_lt hx

theorem byteOfInt_lt (i : Int) : byteOfInt i < 256 := by
  unfold byteOfInt
  have h1 : 0 ≤ i % 256 := Int.emod_nonneg i (by norm_num)
  have h2 : i % 256 < 256 := Int.emod_lt_of_pos i (by norm_num)
  omega

theorem makeTerrain_lt (tl tr bl br : Int) :
    makeTerrain tl tr bl br < 2 ^ 32 := by
  unfold makeTerrain
  have h3 := byteOfInt_lt tl
  have h2 := byteOfInt_lt tr
  have h1 := byteOfInt_lt bl
  have h0 := byteOfInt_lt br
  apply Nat.or_lt_two_pow
  apply Nat.or_lt_two_pow
  apply Nat.or_lt_two_pow
  · rw [Nat.shiftLeft_eq]; omega
  · rw [Nat.shiftLeft_eq]; omega
  · rw [Nat.shiftLeft_eq]; omega
  · omega

theorem getByte_makeTerrain_24 (tl tr bl br : Int) :
    getByte (makeTerrain tl tr bl br) 24 = byteOfInt tl := by
  unfold makeTerrain
  rw [getByte_lor, getByte_lor, getByte_lor,
    getByte_shiftLeft_self _ _ (byteOfInt_lt tl),
    getByte_shiftLeft_above _ _ _ (byteOfInt_lt tr) (by norm_num),
    getByte_shiftLeft_above _ _ _ (byteOfInt_lt bl) (by norm_num),
    getByte_of_lt_above _ _ (byteOfInt_lt br) (by norm_num)]
  simp

theorem getByte_makeTerrain_16 (tl tr bl br : Int) :
    getByte (makeTerrain tl tr bl br) 16 = byteOfInt tr := by
  unfold makeTerrain
  rw [getByte_lor, getByte_lor, getByte_lor,
    getByte_shiftLeft_below _ _ _ (by norm_num),
    getByte_shiftLeft_self _ _ (byteOfInt_lt tr),
    getByte_shiftLeft_above _ _ _ (byteOfInt_lt bl) (by norm_num),
    getByte_of_lt_above _ _ (byteOfInt_lt br) (by norm_num)]
  simp

theorem getByte_makeTerrain_8 (tl tr bl br : Int) :
    getByte (makeTerrain tl tr bl br) 8 = byteOfInt bl := by
  unfold makeTerrain
  rw [getByte_lor, getByte_lor, getByte_lor,
    getByte_shiftLeft_below _ _ _ (by norm_num),
    getByte_shiftLeft_below _ _ _ (by norm_num),
    getByte_shiftLeft_self _ _ (byteOfInt_lt bl),
    getByte_of_lt_above _ _ (byteOfInt_lt br) (by norm_num)]
  simp

theorem getByte_makeTerrain_0 (tl tr bl br : Int) :
    getByte (makeTerrain tl tr bl br) 0 = byteOfInt br := by
  unfold makeTerrain
  rw [getByte_lor, getByte_lor, getByte_lor,
    getByte_shiftLeft_below _ _ _ (by norm_num),
    getByte_shiftLeft_below _ _ _ (by norm_num),
    getByte_shiftLeft_below _ _ _ (by norm_num),
    getByte_zero _ (byteOfInt_lt br)]
  simp

theorem getByte_mask_other (w v p q : Nat) (hp : p + 8 <= 32)
    (hdisj : p + 8 <= q \/ q + 8 <= p) :
    getByte ((w &&& (0xFFFFFFFF ^^^ (0xFF <<< q))) ||| (v &&& (0xFF <<< q))) p =
      getByte w p := by
  apply Nat.eq_of_testBit_eq
  intro i
  rw [getByte_testBit, getByte_testBit]
  by_cases hi : i < 8
  · simp only [Nat.testBit_lor, Nat.testBit_land, Nat.testBit_xor,
      Nat.testBit_shiftLeft, show (0xFF : Nat) = 2 ^ 8 - 1 from rfl,
      show (0xFFFFFFFF : Nat) = 2 ^ 32 - 1 from rfl,
      Nat.testBit_two_pow_sub_one, ge_iff_le]
    have h32 : p + i < 32 := by omega
    by_cases hq : q <= p + i
    · have h8 : ¬(p + i - q < 8) := by omega
      simp [hq, h8, h32, hi]
    · simp [hq, h32, hi]
  · simp [hi]

theorem getByte_mask_own (w v p : Nat) (hp : p + 8 <= 32) :
    getByte ((w &&& (0xFFFFFFFF ^^^ (0xFF <<< p))) ||| (v &&& (0xFF <<< p))) p =
      getByte v p := by
  apply Nat.eq_of_testBit_eq
  intro i
  rw [getByte_testBit, getByte_testBit]
  by_cases hi : i < 8
  · simp only [Nat.testBit_lor, Nat.testBit_land, Nat.testBit_xor,
      Nat.testBit_shiftLeft, show (0xFF : Nat) = 2 ^ 8 - 1 from rfl,
      show (0xFFFFFFFF : Nat) = 2 ^ 32 - 1 from rfl,
      Nat.testBit_two_pow_sub_one, ge_iff_le]
    have h32 : p + i < 32 := by omega
    have hq : p <= p + i := by omega
    have h8 : p + i - p < 8 := by omega
    simp [hq, h8, h32, hi]
  · simp [hi]

theorem cornerTerrainIdOf_eq_getByte (w c : Nat) :
    cornerTerrainIdOf w c =
      if getByte w ((3 - c) * 8) = 0xFF then -1
      else ((getByte w ((3 - c) * 8) : Nat) : Int) := rfl

theorem setTerrainCorner_eq (w c : Nat) (tid : Int) :
    setTerrainCorner w c tid =
      (w &&& (0xFFFFFFFF ^^^ (0xFF <<< ((3 - c) * 8)))) |||
        (((tid * 2 ^ ((3 - c) * 8)) % (2 ^ 32 : Int)).toNat &&&
          (0xFF <<< ((3 - c) * 8))) := rfl

theorem byteOfInt_cast_of_range (i : Int) (h0 : 0 <= i) (h1 : i <= 255) :
    (byteOfInt i : Int) = i := by
  unfold byteOfInt
  rw [Int.emod_eq_of_lt h0 (by omega)]
  exact Int.toNat_of_nonneg h0

/-- C4: the four-argument makeTerrain returns exactly the packed word with
one byte per corner, top-left in the most significant byte down to
bottom-right in the least, each corner masked to its low 8 bits. -/
theorem makeTerrain_packs_bytes (topLeft topRight bottomLeft bottomRight : Int) :
    makeTerrain topLeft topRight bottomLeft bottomRight =
      byteOfInt topLeft * 2 ^ 24 + byteOfInt topRight * 2 ^ 16 +
        byteOfInt bottomLeft * 2 ^ 8 + byteOfInt bottomRight := by
  have f3 := getByte_makeTerrain_24 topLeft topRight bottomLeft bottomRight
  have f2 := getByte_makeTerrain_16 topLeft topRight bottomLeft bottomRight
  have f1 := getByte_makeTerrain_8 topLeft topRight bottomLeft bottomRight
  have f0 := getByte_makeTerrain_0 topLeft topRight bottomLeft bottomRight
  have fb := makeTerrain_lt topLeft topRight bottomLeft bottomRight
  rw [getByte_eq_div_mod] at f3 f2 f1 f0
  have b3 := byteOfInt_lt topLeft
  have b2 := byteOfInt_lt topRight
  have b1 := byteOfInt_lt bottomLeft
  have b0 := byteOfInt_lt bottomRight
  norm_num at f3 f2 f1 f0 fb ⊢
  omega

/-- C1: packing four corner values in [0,254] with makeTerrain and then
decoding each corner with the cornerTerrainId decode returns the original
value of that corner. -/
theorem makeTerrain_roundtrip (topLeft topRight bottomLeft bottomRight : Int)
    (h1 : 0 <= topLeft) (h2 : topLeft <= 254)
    (h3 : 0 <= topRight) (h4 : topRight <= 254)
    (h5 : 0 <= bottomLeft) (h6 : bottomLeft <= 254)
    (h7 : 0 <= bottomRight) (h8 : bottomRight <= 254) :
    cornerTerrainIdOf (makeTerrain topLeft topRight bottomLeft bottomRight) 0 = topLeft ∧
    cornerTerrainIdOf (makeTerrain topLeft topRight bottomLeft bottomRight) 1 = topRight ∧
    cornerTerrainIdOf (makeTerrain topLeft topRight bottomLeft bottomRight) 2 = bottomLeft ∧
    cornerTerrainIdOf (makeTerrain topLeft topRight bottomLeft bottomRight) 3 = bottomRight := by
  refine ⟨?_, ?_, ?_, ?_⟩ <;> rw [cornerTerrainIdOf_eq_getByte] <;> norm_num
  · rw [getByte_makeTerrain_24]
    have hv := byteOfInt_cast_of_range topLeft h1 (by omega)
    rw [if_neg (by omega), hv]
  · rw [getByte_makeTerrain_16]
    have hv := byteOfInt_cast_of_range topRight h3 (by omega)
    rw [if_neg (by omega), hv]
  · rw [getByte_makeTerrain_8]
    have hv := byteOfInt_cast_of_range bottomLeft h5 (by omega)
    rw [if_neg (by omega), hv]
  · rw [getByte_makeTerrain_0]
    have hv := byteOfInt_cast_of_range bottomRight h7 (by omega)
    rw [if_neg (by omega), hv]

theorem makeTerrain_roundtrip_witness :
    (0 : Int) <= 10 ∧
    (cornerTerrainIdOf (makeTerrain 10 20 30 254) 0 = 10 ∧
     cornerTerrainIdOf (makeTerrain 10 20 30 254) 1 = 20 ∧
     cornerTerrainIdOf (makeTerrain 10 20 30 254) 2 = 30 ∧
     cornerTerrainIdOf (makeTerrain 10 20 30 254) 3 = 254) :=
  ⟨by norm_num,
   makeTerrain_roundtrip 10 20 30 254 (by norm_num) (by norm_num) (by norm_num)
     (by norm_num) (by norm_num) (by norm_num) (by norm_num) (by norm_num)⟩

/-- C3: for a corner in [0,3], the decode returns -1 exactly when the
packed byte of that corner is 0xFF and the byte value itself otherwise,
so the result always lies in [-1,254]. -/
theorem cornerTerrainIdOf_cases (w c : Nat) (hc : c <= 3) :
    (getByte w ((3 - c) * 8) = 0xFF → cornerTerrainIdOf w c = -1) ∧
    (getByte w ((3 - c) * 8) ≠ 0xFF →
      cornerTerrainIdOf w c = ((getByte w ((3 - c) * 8) : Nat) : Int)) ∧
    -1 <= cornerTerrainIdOf w c ∧ cornerTerrainIdOf w c <= 254 := by
  rw [cornerTerrainIdOf_eq_getByte]
  have hb := getByte_lt w ((3 - c) * 8)
  by_cases h : getByte w ((3 - c) * 8) = 0xFF
  · rw [if_pos h]
    exact ⟨fun _ => rfl, fun hh => absurd h hh, by norm_num, by norm_num⟩
  · rw [if_neg h]
    refine ⟨fun hh => absurd hh h, fun _ => rfl, by omega, by omega⟩

theorem cornerTerrainIdOf_cases_witness :
    (3 : Nat) <= 3 ∧
    ((getByte 0xAABBCCFF ((3 - 3) * 8) = 0xFF → cornerTerrainIdOf 0xAABBCCFF 3 = -1) ∧
     (getByte 0xAABBCCFF ((3 - 3) * 8) ≠ 0xFF →
       cornerTerrainIdOf 0xAABBCCFF 3 = ((getByte 0xAABBCCFF ((3 - 3) * 8) : Nat) : Int)) ∧
     -1 <= cornerTerrainIdOf 0xAABBCCFF 3 ∧ cornerTerrainIdOf 0xAABBCCFF 3 <= 254) :=
  ⟨by norm_num, cornerTerrainIdOf_cases 0xAABBCCFF 3 (by norm_num)⟩

/-- C2: setTerrainCorner changes only the byte of the given corner; every
other corner decodes to the same value as before. -/
theorem setTerrainCorner_preserves_other_corners (w : Nat) (c c' : Nat) (tid : Int)
    (hc : c <= 3) (hc' : c' <= 3) (hne : c' ≠ c) :
    cornerTerrainIdOf (setTerrainCorner w c tid) c' = cornerTerrainIdOf w c' := by
  rw [cornerTerrainIdOf_eq_getByte, cornerTerrainIdOf_eq_getByte, setTerrainCorner_eq,
    getByte_mask_other _ _ _ _ (by omega) (by omega)]

theorem setTerrainCorner_preserves_other_corners_witness :
    (1 : Nat) <= 3 ∧ (2 : Nat) ≠ 1 ∧
    cornerTerrainIdOf (setTerrainCorner 0x01020304 1 99) 2 = cornerTerrainIdOf 0x01020304 2 :=
  ⟨by norm_num, by norm_num,
   setTerrainCorner_preserves_other_corners 0x01020304 1 2 99 (by norm_num) (by norm_num)
     (by norm_num)⟩

theorem setTerrainCorner_roundtrip (w c : Nat) (tid : Int) (hc : c <= 3)
    (h1 : -1 <= tid) (h2 : tid <= 254) :
    cornerTerrainIdOf (setTerrainCorner w c tid) c = tid := by
  rw [cornerTerrainIdOf_eq_getByte, setTerrainCorner_eq,
    getByte_mask_own _ _ _ (by omega)]
  by_cases ht : tid = -1
  · subst ht
    interval_cases c <;> decide
  · have h0 : 0 <= tid := by omega
    obtain ⟨n, rfl⟩ : ∃ n : Nat, tid = (n : Int) := ⟨tid.toNat, (Int.toNat_of_nonneg h0).symm⟩
    have hn : n <= 254 := by exact_mod_cast h2
    have hp : (3 - c) * 8 <= 24 := by omega
    have hpow : (2 : Int) ^ ((3 - c) * 8) <= 2 ^ 24 :=
      pow_le_pow_right₀ (by norm_num) hp
    have hpos : (0 : Int) < 2 ^ ((3 - c) * 8) := pow_pos (by norm_num) _
    have hlt : (n : Int) * 2 ^ ((3 - c) * 8) < 2 ^ 32 := by nlinarith
    have hnn : (0 : Int) <= (n : Int) * 2 ^ ((3 - c) * 8) := by positivity
    rw [Int.emod_eq_of_lt hnn hlt,
      show ((n : Int) * 2 ^ ((3 - c) * 8)) = ((n * 2 ^ ((3 - c) * 8) : Nat) : Int) by
        push_cast; ring,
      Int.toNat_natCast, ← Nat.shiftLeft_eq,
      getByte_shiftLeft_self _ _ (by omega), if_neg (by omega)]

/-- C10: on a Tile, setting a corner terrain id in [-1,254] (including the
unset sentinel -1) and reading the same corner back returns exactly that
id. -/
theorem Tile.setCornerTerrainId_roundtrip (t : Tile) (c : Nat) (tid : Int)
    (hc : c <= 3) (h1 : -1 <= tid) (h2 : tid <= 254) :
    (t.setCornerTerrainId c tid).cornerTerrainId c = tid :=
  setTerrainCorner_roundtrip t.mTerrain c tid hc h1 h2

theorem Tile.setCornerTerrainId_roundtrip_witness :
    ((3 : Nat) <= 3 ∧ (-1 : Int) <= -1 ∧ (-1 : Int) <= 254) ∧
    ((Tile.mk 7 ⟨false⟩ LoadingReady 0x01020304 [] 0 0).setCornerTerrainId 3
        (-1)).cornerTerrainId 3 = -1 :=
  ⟨⟨by norm_num, by norm_num, by norm_num⟩,
   Tile.setCornerTerrainId_roundtrip (Tile.mk 7 ⟨false⟩ LoadingReady 0x01020304 [] 0 0)
     3 (-1) (by norm_num) (by norm_num) (by norm_num)⟩

theorem advanceLoop_idx_bound (fs : List Frame) (idx u : Int) :
    0 <= idx → idx < fs.length →
      0 <= (advanceLoop fs idx u).1 ∧ (advanceLoop fs idx u).1 < fs.length := by
  induction idx, u using advanceLoop.induct fs with
  | case1 idx u hcond ih =>
    intro h0 h1
    rw [advanceLoop, dif_pos hcond]
    apply ih
    · exact Int.emod_nonneg _ (by omega)
    · exact Int.emod_lt_of_pos _ (by omega)
  | case2 idx u hcond =>
    intro h0 h1
    rw [advanceLoop, dif_neg hcond]
    exact ⟨h0, h1⟩

theorem advanceLoop_stop (fs : List Frame) (idx u : Int)
    (h : ¬(0 < (fs.getD idx.toNat Tile.noFrame).duration ∧
           (fs.getD idx.toNat Tile.noFrame).duration < u)) :
    advanceLoop fs idx u = (idx, u) := by
  rw [advanceLoop, dif_neg h]

/-- C5: isAnimated returns false exactly when the frame sequence is empty
and true exactly when it is non-empty. -/
theorem Tile.isAnimated_iff (t : Tile) :
    (t.isAnimated = false ↔ t.frames = []) ∧
    (t.isAnimated = true ↔ t.frames ≠ []) := by
  cases h : t.mFrames <;>
    simp [Tile.isAnimated, Tile.frames, h]

/-- C6: resetAnimation always yields frame index 0 and zero unused
(elapsed) time, and reports true exactly when the visible frame (the
current frame index) changed as a result of the call. -/
theorem Tile.resetAnimation_spec (t : Tile) :
    t.resetAnimation.fst.mCurrentFrameIndex = 0 ∧
    t.resetAnimation.fst.mUnusedTime = 0 ∧
    (t.resetAnimation.snd = true ↔
      t.resetAnimation.fst.mCurrentFrameIndex ≠ t.mCurrentFrameIndex) := by
  refine ⟨rfl, rfl, ?_⟩
  simp only [Tile.resetAnimation, decide_eq_true_eq]
  exact ne_comm

/-- C9: after setImage the image status is LoadingError exactly when the
given image is null and LoadingReady exactly when it is not; no other
loading status can result. -/
theorem Tile.setImage_status (t : Tile) (image : QPixmap) :
    ((t.setImage image).imageStatus = LoadingError ↔ image.isNull = true) ∧
    ((t.setImage image).imageStatus = LoadingReady ↔ image.isNull = false) ∧
    ((t.setImage image).imageStatus = LoadingError ∨
      (t.setImage image).imageStatus = LoadingReady) := by
  cases h : image.isNull <;>
    simp [Tile.setImage, Tile.imageStatus, h]

theorem Tile.isAnimated_eq_true_iff (t : Tile) :
    t.isAnimated = true ↔ t.mFrames ≠ [] := by
  cases h : t.mFrames <;> simp [Tile.isAnimated, h]

theorem Tile.advanceAnimation_eq_of_animated (t : Tile) (ms : Int)
    (hA : t.isAnimated = true) :
    t.advanceAnimation ms =
      ({ t with
          mCurrentFrameIndex :=
            (advanceLoop t.mFrames t.mCurrentFrameIndex (t.mUnusedTime + ms)).1
          mUnusedTime :=
            (advanceLoop t.mFrames t.mCurrentFrameIndex (t.mUnusedTime + ms)).2 },
       decide ((advanceLoop t.mFrames t.mCurrentFrameIndex (t.mUnusedTime + ms)).1 ≠
         t.mCurrentFrameIndex)) := by
  rw [Tile.advanceAnimation, if_pos hA]

theorem Tile.advanceAnimation_eq_of_not_animated (t : Tile) (ms : Int)
    (hA : ¬t.isAnimated = true) :
    t.advanceAnimation ms = (t, false) := by
  rw [Tile.advanceAnimation, if_neg hA]

/-- C7: on an animated tile with a valid current frame index,
advanceAnimation keeps the frame sequence, keeps the index a valid index
(wrapping within the sequence), reports true exactly when the visible
frame (the current frame index) changed, never changes the frame on a
single-frame sequence of non-positive (infinite-equivalent) duration, and
does not move while the elapsed time stays within the current frame's
positive duration. -/
theorem Tile.advanceAnimation_spec (t : Tile) (ms : Int)
    (hA : t.isAnimated = true)
    (h0 : 0 <= t.mCurrentFrameIndex)
    (h1 : t.mCurrentFrameIndex < t.mFrames.length) :
    (t.advanceAnimation ms).fst.mFrames = t.mFrames ∧
    (0 <= (t.advanceAnimation ms).fst.mCurrentFrameIndex ∧
      (t.advanceAnimation ms).fst.mCurrentFrameIndex < t.mFrames.length) ∧
    ((t.advanceAnimation ms).snd = true ↔
      (t.advanceAnimation ms).fst.mCurrentFrameIndex ≠ t.mCurrentFrameIndex) ∧
    (∀ f : Frame, t.mFrames = [f] → f.duration <= 0 →
      (t.advanceAnimation ms).fst.mCurrentFrameIndex = t.mCurrentFrameIndex ∧
      (t.advanceAnimation ms).snd = false) ∧
    (0 < (t.mFrames.getD t.mCurrentFrameIndex.toNat Tile.noFrame).duration →
      t.mUnusedTime + ms <=
          (t.mFrames.getD t.mCurrentFrameIndex.toNat Tile.noFrame).duration →
      (t.advanceAnimation ms).fst.mCurrentFrameIndex = t.mCurrentFrameIndex) := by
  rw [Tile.advanceAnimation_eq_of_animated t ms hA]
  refine ⟨rfl, ?_, ?_, ?_, ?_⟩
  · exact advanceLoop_idx_bound t.mFrames t.mCurrentFrameIndex
      (t.mUnusedTime + ms) h0 h1
  · simp only [decide_eq_true_eq]
  · intro f hf hd
    have hidx : t.mCurrentFrameIndex = 0 := by
      rw [hf] at h1
      simp only [List.length_singleton] at h1
      omega
    have hstop : advanceLoop t.mFrames t.mCurrentFrameIndex (t.mUnusedTime + ms) =
        (t.mCurrentFrameIndex, t.mUnusedTime + ms) := by
      apply advanceLoop_stop
      rw [hf, hidx]
      simp only [Int.toNat_zero, List.getD_cons_zero]
      omega
    rw [hstop]
    simp
  · intro hdur hle
    have hstop : advanceLoop t.mFrames t.mCurrentFrameIndex (t.mUnusedTime + ms) =
        (t.mCurrentFrameIndex, t.mUnusedTime + ms) := by
      apply advanceLoop_stop
      omega
    rw [hstop]

theorem Tile.advanceAnimation_spec_witness :
    ((Tile.mk 1 ⟨false⟩ LoadingReady 0 [⟨5, 0⟩] 0 0).isAnimated = true ∧
      (0 : Int) <= (Tile.mk 1 ⟨false⟩ LoadingReady 0 [⟨5, 0⟩] 0 0).mCurrentFrameIndex ∧
      (Tile.mk 1 ⟨false⟩ LoadingReady 0 [⟨5, 0⟩] 0 0).mCurrentFrameIndex <
        (Tile.mk 1 ⟨false⟩ LoadingReady 0 [⟨5, 0⟩] 0 0).mFrames.length) ∧
    (((Tile.mk 1 ⟨false⟩ LoadingReady 0 [⟨5, 0⟩] 0 0).advanceAnimation 1000).fst.mFrames =
        (Tile.mk 1 ⟨false⟩ LoadingReady 0 [⟨5, 0⟩] 0 0).mFrames ∧
      (0 <= ((Tile.mk 1 ⟨false⟩ LoadingReady 0 [⟨5, 0⟩] 0 0).advanceAnimation 1000).fst.mCurrentFrameIndex ∧
        ((Tile.mk 1 ⟨false⟩ LoadingReady 0 [⟨5, 0⟩] 0 0).advanceAnimation 1000).fst.mCurrentFrameIndex <
          (Tile.mk 1 ⟨false⟩ LoadingReady 0 [⟨5, 0⟩] 0 0).mFrames.length) ∧
      (((Tile.mk 1 ⟨false⟩ LoadingReady 0 [⟨5, 0⟩] 0 0).advanceAnimation 1000).snd = true ↔
        ((Tile.mk 1 ⟨false⟩ LoadingReady 0 [⟨5, 0⟩] 0 0).advanceAnimation 1000).fst.mCurrentFrameIndex ≠
          (Tile.mk 1 ⟨false⟩ LoadingReady 0 [⟨5, 0⟩] 0 0).mCurrentFrameIndex) ∧
      (∀ f : Frame, (Tile.mk 1 ⟨false⟩ LoadingReady 0 [⟨5, 0⟩] 0 0).mFrames = [f] →
        f.duration <= 0 →
        ((Tile.mk 1 ⟨false⟩ LoadingReady 0 [⟨5, 0⟩] 0 0).advanceAnimation 1000).fst.mCurrentFrameIndex =
          (Tile.mk 1 ⟨false⟩ LoadingReady 0 [⟨5, 0⟩] 0 0).mCurrentFrameIndex ∧
        ((Tile.mk 1 ⟨false⟩ LoadingReady 0 [⟨5, 0⟩] 0 0).advanceAnimation 1000).snd = false) ∧
      (0 < ((Tile.mk 1 ⟨false⟩ LoadingReady 0 [⟨5, 0⟩] 0 0).mFrames.getD
            (Tile.mk 1 ⟨false⟩ LoadingReady 0 [⟨5, 0⟩] 0 0).mCurrentFrameIndex.toNat
            Tile.noFrame).duration →
        (Tile.mk 1 ⟨false⟩ LoadingReady 0 [⟨5, 0⟩] 0 0).mUnusedTime + 1000 <=
          ((Tile.mk 1 ⟨false⟩ LoadingReady 0 [⟨5, 0⟩] 0 0).mFrames.getD
            (Tile.mk 1 ⟨false⟩ LoadingReady 0 [⟨5, 0⟩] 0 0).mCurrentFrameIndex.toNat
            Tile.noFrame).duration →
        ((Tile.mk 1 ⟨false⟩ LoadingReady 0 [⟨5, 0⟩] 0 0).advanceAnimation 1000).fst.mCurrentFrameIndex =
          (Tile.mk 1 ⟨false⟩ LoadingReady 0 [⟨5, 0⟩] 0 0).mCurrentFrameIndex)) :=
  ⟨⟨by decide, by decide, by decide⟩,
   Tile.advanceAnimation_spec (Tile.mk 1 ⟨false⟩ LoadingReady 0 [⟨5, 0⟩] 0 0) 1000
     (by decide) (by decide) (by decide)⟩

/-- C8: every sequence of the public operations setFrames, resetAnimation
and advanceAnimation preserves validity of the current frame index:
whenever the frame sequence is non-empty, 0 <= currentFrameIndex <
frames.size. -/
theorem Tile.applyOps_frameIndexValid (t : Tile) (ops : List TileOp)
    (h : t.frameIndexValid) : (t.applyOps ops).frameIndexValid := by
  induction ops generalizing t with
  | nil => exact h
  | cons op rest ih =>
    have hstep : (t.applyOp op).frameIndexValid := by
      cases op with
      | setFrames fs =>
        intro hne
        simp only [Tile.applyOp, Tile.setFrames] at hne ⊢
        have hpos := List.length_pos.mpr hne
        omega
      | resetAnimation =>
        intro hne
        simp only [Tile.applyOp, Tile.resetAnimation] at hne ⊢
        have hpos := List.length_pos.mpr hne
        omega
      | advanceAnimation ms =>
        by_cases hA : t.isAnimated = true
        · have hne : t.mFrames ≠ [] := (Tile.isAnimated_eq_true_iff t).mp hA
          obtain ⟨hb0, hb1⟩ := h hne
          intro _
          simp only [Tile.applyOp, Tile.advanceAnimation_eq_of_animated t ms hA]
          exact advanceLoop_idx_bound t.mFrames t.mCurrentFrameIndex
            (t.mUnusedTime + ms) hb0 hb1
        · simp only [Tile.applyOp, Tile.advanceAnimation_eq_of_not_animated t ms hA]
          exact h
    exact ih _ hstep

theorem Tile.applyOps_frameIndexValid_witness :
    (Tile.mk 1 ⟨false⟩ LoadingReady 0 [] 0 0).frameIndexValid ∧
    ((Tile.mk 1 ⟨false⟩ LoadingReady 0 [] 0 0).applyOps
        [TileOp.setFrames [⟨2, 100⟩], TileOp.advanceAnimation 150,
         TileOp.resetAnimation]).frameIndexValid :=
  ⟨fun hne => absurd rfl hne,
   Tile.applyOps_frameIndexValid (Tile.mk 1 ⟨false⟩ LoadingReady 0 [] 0 0)
     [TileOp.setFrames [⟨2, 100⟩], TileOp.advanceAnimation 150,
      TileOp.resetAnimation]
     (fun hne => absurd rfl hne)⟩

end Tiled
